import Mathlib

/-!
A shallow embedding of `scripts/preprocessors.py` from the `ebb` repository:
the `standard` trim-and-downsample preprocessor, the `spindle` channel-subset
preprocessor, and the `batch` scheduler, together with theorems about the
trim plan, the header rewrites, the error paths and the batch dispatch.

Numbers are modelled exactly: sample counts and rates are naturals, the
float expressions of the source (`np.ceil(stop / fs) * fs`,
`processed.shape[axis] / (fs / m)`) are modelled over `ℚ` / exact natural
ceiling division, and Python `int()` truncation is `pyint`.
-/

set_option linter.unusedVariables false

deriving instance DecidableEq for Except

namespace Ebb

/-- Python `int()` on a rational: truncation toward zero. -/
def pyint (q : ℚ) : ℤ := q.num.tdiv q.den

/-- The EDF header fields touched by `preprocessors.py`
(`samples_per_record`, `num_records`, `digital_min`, `digital_max`,
`reserved_0`), plus `rest`, which stands for every other header field:
the code never reads or writes those, so one opaque list models them all. -/
structure Header where
  samples_per_record : List ℕ
  num_records : ℤ
  digital_min : List ℚ
  digital_max : List ℚ
  reserved_0 : String
  rest : List String
deriving DecidableEq

/-- The part of an open `edf.Reader` the code consumes: its header, its
total sample count along the time axis (`reader.shape[axis]`), and its
channel list (`reader.channels`). -/
structure Reader where
  header : Header
  nsamples : ℕ
  channels : List ℕ
deriving DecidableEq

/-- The `path` argument of `standard` / `spindle`, typed
`Union[str, Path]` in the source: either a raw string (which has no
`.stem` / `.suffix` attributes) or a `pathlib.Path` with a stem and a
suffix. -/
inductive PyPath where
  | str (s : String)
  | path (stem : String) (sfx : String)
deriving DecidableEq

/-- The Python exceptions relevant to these claims. `valueError` carries
the content of the message built at the trim check: the path stem, the
actual duration in hours, and the `trim_to` candidates.
`fileExistsError` is what `Path.mkdir()` raises on an existing directory.
`invalidChannelError` and `headerConsistencyError` are the error kinds the
spec names; they appear nowhere in the source, and the model shows they
are never produced. -/
inductive PyError where
  | attributeError
  | valueError (stem : String) (hours : ℚ) (trim_to : List ℕ)
  | fileExistsError
  | invalidChannelError
  | headerConsistencyError
deriving DecidableEq

/-- The payload of the trim-failure message: the recording's actual
duration in hours (`reader.shape[axis] / (3600 * fs)`) and the candidate
set `trim_to`. -/
structure TrimError where
  hours : ℚ
  trim_to : List ℕ
deriving DecidableEq

/-- `np.searchsorted(xs, v, side='right')` for an ascending `xs`: the
number of entries `≤ v` (the insertion index keeping `xs` sorted with `v`
placed after equal entries). -/
def searchsortedRight (xs : List ℕ) (v : ℕ) : ℕ :=
  xs.countP (fun x => x ≤ v)

/-- Lines 88-97 of `standard`: convert each `trim_to` hour count to a
sample count (`t * 3600 * fs`), pick the largest candidate not exceeding
the recording's length via `searchsorted(..., side='right') - 1`, raise
(with the actual duration and the candidate set) when the index is
negative, and round the chosen stop up to the next multiple of `fs`
samples (`int(np.ceil(stop / fs) * fs)`). -/
def trimPlan (trim_to : List ℕ) (fs n : ℕ) : Except TrimError ℕ :=
  let trim_samples := trim_to.map (fun t => t * 3600 * fs)
  let cnt := searchsortedRight trim_samples n
  if cnt = 0 then
    .error ⟨(n : ℚ) / (3600 * fs), trim_to⟩
  else
    let stop := trim_samples.getD (cnt - 1) 0
    .ok ((stop + fs - 1) / fs * fs)

/-- Modelled from the spec: the external resampler (the "Resampler"
collaborator of the spec, `openseize.resampling.downsample`, not under
src) decimates a stream by the integer factor `m`, so `n` input samples
yield `⌈n / m⌉` output samples. -/
def downsampleLen (n m : ℕ) : ℕ := (n + m - 1) / m

/-- Lines 106-115 of `standard`: deep-copy the source header, floor-divide
every `samples_per_record` entry by the downsample factor `m`, set
`num_records` to `int(processed_count / (fs / m))`, clear `reserved_0`,
and truncate the digital bounds to integers. `P` is the transformed
(trimmed and downsampled) sample count `processed.shape[axis]`. -/
def transformedHeader (h : Header) (fs m P : ℕ) : Header :=
  { samples_per_record := h.samples_per_record.map (fun x => x / m)
    num_records := pyint ((P : ℚ) / ((fs : ℚ) / (m : ℚ)))
    digital_min := h.digital_min.map (fun q => (pyint q : ℚ))
    digital_max := h.digital_max.map (fun q => (pyint q : ℚ))
    reserved_0 := ""
    rest := h.rest }

/-- What a successful run of `standard` writes: the output filename
(`path.stem + '_PREPROCESSED' + path.suffix` inside `savedir`), the
rewritten header, the transformed sample count, and the channel order
passed to the writer (`reader.channels`). -/
structure StdOutput where
  filename : String
  savedir : String
  header : Header
  nsamplesOut : ℕ
  channels : List ℕ
deriving DecidableEq

/-- The observable outcome of one run of `standard`: the value or the
exception it ends with, and whether `reader.close()` (the last statement
of the function body, line 123) was reached. -/
structure StdRun where
  outcome : Except PyError StdOutput
  readerClosed : Bool
deriving DecidableEq

/-- The body of `standard` (lines 85-123). Control flow of the source:
the trim check may raise; on the failure branch the message f-string
evaluates `path.stem` on the RAW argument (not the converted `fp`), so a
`str` path raises `AttributeError` instead of the `ValueError`; on the
success branch the data is produced, downsampled and materialized, the
header is rewritten, and then `path.stem` is again read from the raw
argument when building the output filename, so a `str` path raises
`AttributeError` there. `reader.close()` runs only after the write, so
`readerClosed` is `false` on every raising path. -/
def standardRun (path : PyPath) (savedir : String) (fs m : ℕ)
    (trim_to : List ℕ) (reader : Reader) : StdRun :=
  match trimPlan trim_to fs reader.nsamples with
  | .error te =>
    match path with
    | .str _ => ⟨.error .attributeError, false⟩
    | .path st _ => ⟨.error (.valueError st te.hours te.trim_to), false⟩
  | .ok stop =>
    let P := downsampleLen stop m
    let header := transformedHeader reader.header fs m P
    match path with
    | .str _ => ⟨.error .attributeError, false⟩
    | .path st sfx =>
      ⟨.ok ⟨st ++ "_PREPROCESSED" ++ sfx, savedir, header, P, reader.channels⟩, true⟩

/-- Lines 155-158 of `spindle`: deep-copy the source header and truncate
the digital bounds to integers; every other field is left unchanged. -/
def spindleHeader (h : Header) : Header :=
  { h with
    digital_min := h.digital_min.map (fun q => (pyint q : ℚ))
    digital_max := h.digital_max.map (fun q => (pyint q : ℚ)) }

/-- What a run of `spindle` passes to the writer: the output filename
(`path.stem + '_SPINDLE' + path.suffix` inside `savedir`), the header,
and the requested channel index sequence, forwarded untouched. -/
structure SpinOutput where
  filename : String
  savedir : String
  header : Header
  channels : List ℕ
deriving DecidableEq

/-- The observable outcome of one run of `spindle`: the value or the
exception, whether the output file was created (`edf.Writer(filepath)`
opens the file when the `with` block is entered, before `write` looks at
the channels), and whether `reader.close()` (line 166) was reached. -/
structure SpinRun where
  outcome : Except PyError SpinOutput
  fileCreated : Bool
  readerClosed : Bool
deriving DecidableEq

/-- The body of `spindle` (lines 150-166). The full data is read, the
header is copied and digital-normalized, and `path.stem` is read from the
raw argument when building the output filename (`AttributeError` for a
`str` path, before the writer is opened). The channel indices are never
inspected by this code: they go to the external writer as given. -/
def spindleRun (path : PyPath) (savedir : String) (channels : List ℕ)
    (reader : Reader) : SpinRun :=
  let header := spindleHeader reader.header
  match path with
  | .str _ => ⟨.error .attributeError, false, false⟩
  | .path st sfx =>
    ⟨.ok ⟨st ++ "_SPINDLE" ++ sfx, savedir, header, channels⟩, true, true⟩

/-- Modelled from the spec: `ebb.core.concurrency.set_cores` is not under
src; per the spec the resolved worker count is
`min(requested ?? available_cores, available_cores, file_count)`. -/
def set_cores (ncores : Option ℕ) (navail nfiles : ℕ) : ℕ :=
  min (min (ncores.getD navail) navail) nfiles

/-- One dispatched job of `batch`: `partial(preprocessor, savedir=target,
**kwargs)` applied to one discovered path. -/
structure Job where
  path : String
  savedir : String
  params : List (String × String)
deriving DecidableEq

/-- `kwargs.pop('savedir', None)` (line 207): the caller-supplied
`savedir` entry, if any, is removed from the keyword parameters. -/
def popSavedir (kw : List (String × String)) : List (String × String) :=
  kw.filter (fun kv => kv.1 ≠ "savedir")

/-- The observable outcome of one run of `batch`: the value or the
exception, the resolved target directory, whether the source directory
was enumerated (`glob`, line 198, runs only after `mkdir` succeeds), the
resolved worker count, and the jobs handed to the pool. -/
structure BatchRun where
  outcome : Except PyError Unit
  target : String
  enumerated : Bool
  workers : ℕ
  dispatched : List Job
deriving DecidableEq

/-- The body of `batch` (lines 192-210). Inputs beyond the Python
arguments describe the environment: `dirs` is the set of directories that
already exist (`target.mkdir()` raises `FileExistsError` on a member),
`files` is what `Path(dirpath).glob('*edf')` returns, and `navail` is the
machine's available core count. The pool semantics (`Pool(workers)` /
`pool.map`) are modelled from the spec: one job per file, zero files
degenerating to a no-op. -/
def batchRun (preprocessorName dirpath : String) (target : Option String)
    (ncores : Option ℕ) (kwargs : List (String × String))
    (dirs : List String) (files : List String) (navail : ℕ) : BatchRun :=
  let tgt := target.getD (dirpath ++ "/" ++ preprocessorName)
  if tgt ∈ dirs then
    ⟨.error .fileExistsError, tgt, false, 0, []⟩
  else
    let workers := set_cores ncores navail files.length
    let kw := popSavedir kwargs
    ⟨.ok (), tgt, true, workers, files.map (fun f => ⟨f, tgt, kw⟩)⟩

/-- In an ascending list, if some entry is `≤ v` then the entry at index
`countP (· ≤ v) - 1` is the largest entry `≤ v`. This is the contract of
`searchsorted(..., side='right') - 1` that the trim plan relies on. -/
theorem sorted_countP_getD (ys : List ℕ) (v : ℕ)
    (hs : List.Sorted (fun a b => a ≤ b) ys)
    (hc : 0 < ys.countP (fun y => y ≤ v)) :
    ys.getD (ys.countP (fun y => y ≤ v) - 1) 0 ∈ ys ∧
    ys.getD (ys.countP (fun y => y ≤ v) - 1) 0 ≤ v ∧
    ∀ y ∈ ys, y ≤ v → y ≤ ys.getD (ys.countP (fun y => y ≤ v) - 1) 0 := by
  induction ys with
  | nil => simp at hc
  | cons a l ih =>
    rw [List.sorted_cons] at hs
    obtain ⟨ha, hl⟩ := hs
    by_cases hav : a ≤ v
    · rw [List.countP_cons_of_pos _ _ (by simpa using hav)] at hc ⊢
      by_cases hzero : l.countP (fun y => y ≤ v) = 0
      · rw [hzero]
        simp only [Nat.zero_add, Nat.sub_self, List.getD_cons_zero]
        refine ⟨List.mem_cons_self a l, hav, ?_⟩
        intro y hy hyv
        rcases List.mem_cons.mp hy with rfl | hy2
        · exact le_refl _
        · exact absurd hyv (by simpa using List.countP_eq_zero.mp hzero y hy2)
      · have hpos : 0 < l.countP (fun y => y ≤ v) := Nat.pos_of_ne_zero hzero
        obtain ⟨hm, hle, hmax⟩ := ih hl hpos
        have hidx : l.countP (fun y => y ≤ v) + 1 - 1 =
            (l.countP (fun y => y ≤ v) - 1) + 1 := by omega
        rw [hidx, List.getD_cons_succ]
        refine ⟨List.mem_cons_of_mem _ hm, hle, ?_⟩
        intro y hy hyv
        rcases List.mem_cons.mp hy with rfl | hy2
        · exact ha _ hm
        · exact hmax y hy2 hyv
    · have hznone : l.countP (fun y => y ≤ v) = 0 := by
        apply List.countP_eq_zero.mpr
        intro y hy
        simp only [decide_eq_true_eq]
        intro hyv
        exact hav (le_trans (ha y hy) hyv)
      rw [List.countP_cons_of_neg _ _ (by simpa using hav), hznone] at hc
      exact absurd hc (by simp)

/-- The trim plan's stop index is always a multiple of `fs` (the stop is
rounded to `ceil(stop/fs) * fs`). -/
theorem trimPlan_dvd (T : List ℕ) (fs n s : ℕ)
    (h : trimPlan T fs n = .ok s) : fs ∣ s := by
  simp only [trimPlan] at h
  by_cases hc : searchsortedRight (T.map fun t => t * 3600 * fs) n = 0
  · rw [if_pos hc] at h
    exact absurd h (by simp)
  · rw [if_neg hc, Except.ok.injEq] at h
    exact h ▸ dvd_mul_left fs _

/-- C1: the trim plan computed by `standard` selects the largest candidate
`t` of the ascending `trim_to` with `t * 3600 * fs ≤ N`, returns that stop
rounded up to the next multiple of `fs` samples, and fails — reporting the
recording's actual duration in hours and the candidate set — exactly when
`N` is below the sample count of every candidate. -/
theorem trimPlan_spec (T : List ℕ) (fs n : ℕ) (hfs : 0 < fs)
    (hsorted : List.Sorted (fun a b => a ≤ b) T) :
    (∀ e, trimPlan T fs n = .error e →
        e.hours = (n : ℚ) / (3600 * fs) ∧ e.trim_to = T) ∧
    ((∃ e, trimPlan T fs n = .error e) ↔ ∀ t ∈ T, n < t * 3600 * fs) ∧
    (∀ s, trimPlan T fs n = .ok s →
        ∃ t ∈ T, t * 3600 * fs ≤ n ∧
          (∀ u ∈ T, u * 3600 * fs ≤ n → u ≤ t) ∧
          s = (t * 3600 * fs + fs - 1) / fs * fs ∧ fs ∣ s) := by
  have hsy : List.Sorted (fun a b => a ≤ b) (T.map (fun t => t * 3600 * fs)) :=
    List.Pairwise.map _
      (fun a b hab => Nat.mul_le_mul_right fs (Nat.mul_le_mul_right 3600 hab))
      hsorted
  by_cases hc : searchsortedRight (T.map fun t => t * 3600 * fs) n = 0
  · have herr : ∀ t ∈ T, n < t * 3600 * fs := by
      have h0 := List.countP_eq_zero.mp hc
      rw [List.forall_mem_map] at h0
      intro t ht
      have := h0 t ht
      simp only [decide_eq_true_eq] at this
      omega
    refine ⟨?_, ?_, ?_⟩
    · intro e he
      unfold trimPlan at he
      simp only [if_pos hc, Except.error.injEq] at he
      exact ⟨by rw [← he], by rw [← he]⟩
    · exact ⟨fun _ => herr,
        fun _ => ⟨⟨(n : ℚ) / (3600 * fs), T⟩, by
          simp only [trimPlan]; rw [if_pos hc]⟩⟩
    · intro s hs
      unfold trimPlan at hs
      simp [hc] at hs
  · have hpos : 0 < (T.map fun t => t * 3600 * fs).countP (fun y => y ≤ n) :=
      Nat.pos_of_ne_zero hc
    obtain ⟨hm, hle, hmax⟩ :=
      sorted_countP_getD (T.map fun t => t * 3600 * fs) n hsy hpos
    obtain ⟨t, ht, hteq⟩ := List.mem_map.mp hm
    refine ⟨?_, ?_, ?_⟩
    · intro e he
      unfold trimPlan at he
      simp [hc] at he
    · constructor
      · rintro ⟨e, he⟩
        unfold trimPlan at he
        simp [hc] at he
      · intro hall
        exact absurd hle (by rw [← hteq]; exact Nat.not_le.mpr (hall t ht))
    · intro s hs
      unfold trimPlan at hs
      simp only [if_neg hc, Except.ok.injEq] at hs
      refine ⟨t, ht, ?_, ?_, ?_, ?_⟩
      · rw [hteq]; exact hle
      · intro u hu huv
        have humem : u * 3600 * fs ∈ T.map fun t => t * 3600 * fs :=
          List.mem_map.mpr ⟨u, hu, rfl⟩
        have := hmax _ humem huv
        rw [← hteq] at this
        exact Nat.le_of_mul_le_mul_right
          (Nat.le_of_mul_le_mul_right this hfs) (by omega)
      · rw [← hs, hteq]
        rfl
      · rw [← hs]
        exact dvd_mul_left fs _

/-- Witness for C1: a 66-hour recording at `fs = 10` with candidates
`[48, 72]` is trimmed to the 48-hour stop `1728000`, a multiple of `fs`. -/
theorem trimPlan_spec_witness :
    0 < 10 ∧ List.Sorted (fun a b => a ≤ b) [48, 72] ∧
    (∃ t ∈ [48, 72], t * 3600 * 10 ≤ 2376000 ∧
      (∀ u ∈ [48, 72], u * 3600 * 10 ≤ 2376000 → u ≤ t) ∧
      1728000 = (t * 3600 * 10 + 10 - 1) / 10 * 10 ∧ 10 ∣ 1728000) :=
  ⟨by decide, by decide,
    (trimPlan_spec [48, 72] 10 2376000 (by decide)
        (by simp [List.sorted_cons])).2.2 1728000 rfl⟩

/-- `int()` of a natural-valued rational is that natural. -/
theorem pyint_natCast (k : ℕ) : pyint (k : ℚ) = k := by
  simp [pyint, Rat.num_natCast, Rat.den_natCast, Int.tdiv_one]

/-- Counterexample to C2 as stated: with `samples_per_record = [5]` and
downsample factor `2`, `standard` raises no `HeaderConsistencyError` and
writes a header whose entry is the silently floored quotient `5 // 2 = 2`. -/
theorem standard_div_counterexample :
    (standardRun (.path "r" ".edf") "sd" 10 2 [1]
        ⟨⟨[5], 7, [], [], "rsv", ["p"]⟩, 36000, [0]⟩).outcome ≠
      .error .headerConsistencyError ∧
    (standardRun (.path "r" ".edf") "sd" 10 2 [1]
        ⟨⟨[5], 7, [], [], "rsv", ["p"]⟩, 36000, [0]⟩).outcome.toOption.map
        (fun o => o.header.samples_per_record) = some [2] := by
  exact ⟨by decide, rfl⟩

/-- C2 amended: `standard` rewrites every `samples_per_record` entry to
the floor quotient `x // m` — the exact quotient whenever `m` divides
`x` — and never raises a `HeaderConsistencyError`, whether or not `m`
divides the per-record sample counts. -/
theorem standard_spr_floor (path : PyPath) (sd : String) (fs m : ℕ)
    (T : List ℕ) (r : Reader) :
    (∀ out, (standardRun path sd fs m T r).outcome = .ok out →
        out.header.samples_per_record =
          r.header.samples_per_record.map (fun x => x / m)) ∧
    (standardRun path sd fs m T r).outcome ≠ .error .headerConsistencyError := by
  rcases h : trimPlan T fs r.nsamples with te | stop
  · cases path <;> simp [standardRun, h]
  · cases path with
    | str s => simp [standardRun, h]
    | path st sfx =>
      constructor
      · intro out hout
        simp only [standardRun, h] at hout
        rw [Except.ok.injEq] at hout
        rw [← hout]
        rfl
      · simp [standardRun, h]

/-- Witness for C2's amended theorem at a concrete successful run:
the written entries are `[5].map (· // 2) = [2]`. -/
theorem standard_spr_floor_witness :
    (transformedHeader ⟨[5], 7, [], [], "rsv", ["p"]⟩ 10 2
        (downsampleLen 36000 2)).samples_per_record =
      [5].map (fun x => x / 2) :=
  (standard_spr_floor (.path "r" ".edf") "sd" 10 2 [1]
      ⟨⟨[5], 7, [], [], "rsv", ["p"]⟩, 36000, [0]⟩).1
    ⟨"r" ++ "_PREPROCESSED" ++ ".edf", "sd",
      transformedHeader ⟨[5], 7, [], [], "rsv", ["p"]⟩ 10 2 (downsampleLen 36000 2),
      downsampleLen 36000 2, [0]⟩ rfl

/-- Counterexample to C3 as stated: with `fs = 10` and downsample factor
`3` (which does not divide `fs`), `standard` writes a header with
`num_records = 3600` and `samples_per_record = [3]` while the transformed
channel holds `12000` samples, and `3600 * 3 = 10800 ≠ 12000`. -/
theorem standard_roundtrip_counterexample :
    (standardRun (.path "r" ".edf") "sd" 10 3 [1]
        ⟨⟨[10], 0, [], [], "", []⟩, 36000, [0]⟩).outcome.toOption.map
        (fun o => (o.header.num_records, o.header.samples_per_record,
                   o.nsamplesOut)) =
      some (3600, [3], 12000) ∧ ¬ ((3600 : ℤ) * 3 = (12000 : ℤ)) := by
  refine ⟨?_, by decide⟩
  have h : trimPlan [1] 10 36000 = .ok 36000 := rfl
  simp only [standardRun, h, Except.toOption, Option.map, transformedHeader]
  norm_num [downsampleLen, pyint]

/-- When the factor `m` divides `fs` and the stop index is a multiple of
`fs`, the downsampled length is the exact quotient and
`int(P / (fs / m))` recovers the exact record count `stop / fs`. -/
theorem numRecords_exact (fs m stop : ℕ) (hm : 0 < m) (hdvd : m ∣ fs)
    (hstop : fs ∣ stop) :
    downsampleLen stop m = stop / m ∧
    pyint ((downsampleLen stop m : ℚ) / ((fs : ℚ) / (m : ℚ))) =
      (stop / fs : ℕ) := by
  obtain ⟨f, rfl⟩ := hdvd
  obtain ⟨k, rfl⟩ := hstop
  have hmstop : m * f * k = m * (f * k) := by ring
  have hP : downsampleLen (m * f * k) m = f * k := by
    unfold downsampleLen
    rw [hmstop]
    have h1 : m * (f * k) + m - 1 = m * (f * k) + (m - 1) := by omega
    rw [h1, Nat.mul_add_div hm, Nat.div_eq_of_lt (by omega), Nat.add_zero]
  have hdivm : m * f * k / m = f * k := by
    rw [hmstop]; exact Nat.mul_div_cancel_left _ hm
  refine ⟨by rw [hP, hdivm], ?_⟩
  rcases Nat.eq_zero_or_pos f with hf | hf
  · subst hf
    have h0 : downsampleLen (m * 0 * k) m = 0 := by
      unfold downsampleLen
      have : m * 0 * k + m - 1 = m - 1 := by omega
      rw [this]
      exact Nat.div_eq_of_lt (by omega)
    rw [h0]
    norm_num [pyint]
  · have hdivfs : m * f * k / (m * f) = k :=
      Nat.mul_div_cancel_left _ (by positivity)
    rw [hP, hdivfs]
    have hm0 : (m : ℚ) ≠ 0 := Nat.cast_ne_zero.mpr (by omega)
    have hf0 : (f : ℚ) ≠ 0 := Nat.cast_ne_zero.mpr (by omega)
    have hqq : ((f * k : ℕ) : ℚ) / (((m * f : ℕ) : ℚ) / (m : ℚ)) =
        ((k : ℕ) : ℚ) := by
      push_cast
      field_simp
    rw [hqq, pyint_natCast]

/-- The record-count identity behind the amended C3:
`(stop / fs) * (fs / m) = stop / m` when `m ∣ fs` and `fs ∣ stop`. -/
theorem stop_div_identity (fs m stop : ℕ) (hm : 0 < m) (hdvd : m ∣ fs)
    (hstop : fs ∣ stop) : stop / fs * (fs / m) = stop / m := by
  obtain ⟨f, rfl⟩ := hdvd
  obtain ⟨k, rfl⟩ := hstop
  have hmstop : m * f * k = m * (f * k) := by ring
  rcases Nat.eq_zero_or_pos f with hf | hf
  · subst hf
    simp
  · rw [Nat.mul_div_cancel_left _ (show 0 < m * f by positivity),
        Nat.mul_div_cancel_left _ hm, hmstop,
        Nat.mul_div_cancel_left _ hm, Nat.mul_comm]

/-- C3 amended: whenever the downsample factor divides `fs` and every
channel records `fs` samples per record (one-second records at the shared
rate, the design assumption the spec states for this system), every
header written by `standard` satisfies `num_records *
samples_per_record[c] = ` the transformed total sample count, for every
channel `c`. For factors that do not divide `fs` the written header can
violate the invariant. -/
theorem standard_roundtrip (path : PyPath) (sd : String) (fs m : ℕ)
    (T : List ℕ) (r : Reader) (hm : 0 < m) (hdvd : m ∣ fs)
    (hspr : ∀ c ∈ r.header.samples_per_record, c = fs) :
    ∀ out, (standardRun path sd fs m T r).outcome = .ok out →
      ∀ c ∈ out.header.samples_per_record,
        out.header.num_records * (c : ℤ) = (out.nsamplesOut : ℤ) := by
  intro out hout c hc
  rcases htp : trimPlan T fs r.nsamples with te | stop
  · cases path <;> simp [standardRun, htp] at hout
  · cases path with
    | str s => simp [standardRun, htp] at hout
    | path st sfx =>
      simp only [standardRun, htp] at hout
      rw [Except.ok.injEq] at hout
      subst hout
      have hfsstop : fs ∣ stop := trimPlan_dvd T fs r.nsamples stop htp
      obtain ⟨hPeq, hNR⟩ := numRecords_exact fs m stop hm hdvd hfsstop
      simp only [transformedHeader, List.mem_map] at hc ⊢
      obtain ⟨x, hx, hcx⟩ := hc
      rw [← hcx, hspr x hx, hNR, hPeq]
      have hnat := stop_div_identity fs m stop hm hdvd hfsstop
      exact_mod_cast congrArg (fun z : ℕ => (z : ℤ)) hnat

/-- Witness for C3's amended theorem: `fs = 10`, factor `5`, two channels
at 10 samples per record, a 1-hour trim of a 36000-sample recording. -/
theorem standard_roundtrip_witness :
    (0 < 5 ∧ 5 ∣ 10) ∧
    (transformedHeader ⟨[10, 10], 0, [], [], "", []⟩ 10 5
          (downsampleLen 36000 5)).num_records * ((2 : ℕ) : ℤ) =
      ((downsampleLen 36000 5 : ℕ) : ℤ) :=
  ⟨⟨by decide, by decide⟩,
    standard_roundtrip (.path "r" ".edf") "sd" 10 5 [1]
      ⟨⟨[10, 10], 0, [], [], "", []⟩, 36000, [0, 1]⟩ (by decide) (by decide)
      (by decide)
      ⟨"r" ++ "_PREPROCESSED" ++ ".edf", "sd",
        transformedHeader ⟨[10, 10], 0, [], [], "", []⟩ 10 5
          (downsampleLen 36000 5),
        downsampleLen 36000 5, [0, 1]⟩ rfl 2 (by decide)⟩

/-- C4: at a recording shorter than every trim candidate, `standard`
raises the trim `ValueError` and the reader is left open —
`reader.close()` is the last statement of the function body and is never
reached on this path, contradicting the closed-on-every-exit-path claim. -/
theorem standard_reader_leak :
    (standardRun (.path "r" ".edf") "sd" 10 2 [48, 72]
        ⟨⟨[10], 0, [], [], "", []⟩, 0, [0]⟩).outcome =
      .error (.valueError "r" 0 [48, 72]) ∧
    (standardRun (.path "r" ".edf") "sd" 10 2 [48, 72]
        ⟨⟨[10], 0, [], [], "", []⟩, 0, [0]⟩).readerClosed = false := by
  constructor
  · have h : trimPlan [48, 72] 10 0 = .error ⟨(0 : ℚ) / (3600 * 10), [48, 72]⟩ :=
      rfl
    simp only [standardRun, h]
    norm_num
  · rfl

/-- Counterexample to C5 as stated: requesting channel `5` of a 2-channel
recording, `spindle` raises no `InvalidChannelError` (no such validation
exists in the code) and the output file has already been created — the
writer opens it before the channel indices are ever looked at. -/
theorem spindle_channel_counterexample :
    (spindleRun (.path "r" ".edf") "sd" [5]
        ⟨⟨[10, 10], 0, [], [], "", []⟩, 100, [0, 1]⟩).fileCreated = true ∧
    (spindleRun (.path "r" ".edf") "sd" [5]
        ⟨⟨[10, 10], 0, [], [], "", []⟩, 100, [0, 1]⟩).outcome ≠
      .error .invalidChannelError := by
  exact ⟨rfl, by decide⟩

/-- C5 amended: `spindle` performs no channel-index validation at all:
for every requested index sequence, in range or not, the indices are
passed untouched to the external writer, the output file is created
(the writer is opened) before any write, and no `InvalidChannelError` is
raised by this code. -/
theorem spindle_unvalidated_channels (st sfx sd : String) (cs : List ℕ)
    (r : Reader) :
    (spindleRun (.path st sfx) sd cs r).outcome =
      .ok ⟨st ++ "_SPINDLE" ++ sfx, sd, spindleHeader r.header, cs⟩ ∧
    (spindleRun (.path st sfx) sd cs r).fileCreated = true :=
  ⟨rfl, rfl⟩

/-- C9: the output of `spindle` carries exactly the requested channel
index sequence in the requested order, and every header field it writes
other than `digital_min` and `digital_max` equals the corresponding field
of the source header (no trimming, no resampling, `reserved_0` and all
remaining fields untouched). -/
theorem spindle_header_preserved (st sfx sd : String) (cs : List ℕ)
    (r : Reader) :
    (spindleRun (.path st sfx) sd cs r).outcome.toOption.map
        (fun o => (o.channels, o.header.samples_per_record,
                   o.header.num_records, o.header.reserved_0,
                   o.header.rest)) =
      some (cs, r.header.samples_per_record, r.header.num_records,
            r.header.reserved_0, r.header.rest) := rfl

/-- C10: with a `str`-typed `path`, both `standard` and `spindle` fail
with an `AttributeError`: `path.stem` is read from the raw `str` argument
(in `standard`'s trim-failure message and in both functions' output
filename construction) instead of the converted `Path`, on every input. -/
theorem str_path_attribute_error (s sd : String) (fs m : ℕ) (T : List ℕ)
    (cs : List ℕ) (r : Reader) :
    (standardRun (.str s) sd fs m T r).outcome = .error .attributeError ∧
    (spindleRun (.str s) sd cs r).outcome = .error .attributeError := by
  refine ⟨?_, rfl⟩
  rcases h : trimPlan T fs r.nsamples with te | stop <;> simp [standardRun, h]

/-- C6: when the resolved target directory does not already exist, the
resolved worker count is `min(requested ?? cores, cores, files)`; with at
least one core and a positive request (when given) the count is `0`
exactly when there are no files, and a batch over zero files completes
without error dispatching nothing. -/
theorem batch_worker_count (name dirpath : String) (target : Option String)
    (ncores : Option ℕ) (kwargs : List (String × String))
    (dirs files : List String) (navail : ℕ)
    (hne : target.getD (dirpath ++ "/" ++ name) ∉ dirs)
    (hc : 1 ≤ navail) (hreq : ∀ q, ncores = some q → 1 ≤ q) :
    (batchRun name dirpath target ncores kwargs dirs files navail).workers =
      min (min (ncores.getD navail) navail) files.length ∧
    ((batchRun name dirpath target ncores kwargs dirs files navail).workers = 0 ↔
      files.length = 0) ∧
    (files = [] →
      (batchRun name dirpath target ncores kwargs dirs files navail).outcome =
          .ok () ∧
      (batchRun name dirpath target ncores kwargs dirs files navail).dispatched =
          []) := by
  have hreq1 : 1 ≤ ncores.getD navail := by
    cases ncores with
    | none => simpa using hc
    | some q => simpa using hreq q rfl
  simp only [batchRun, if_neg hne, set_cores]
  refine ⟨trivial, ?_, ?_⟩
  · simp only [Nat.min_def]
    split_ifs <;> omega
  · intro hf
    subst hf
    exact ⟨trivial, rfl⟩

/-- Witness for C6: four cores, no request, an empty directory — zero
workers, successful no-op. -/
theorem batch_worker_count_witness :
    (batchRun "standard" "d" none none [] [] [] 4).workers =
      min (min ((none : Option ℕ).getD 4) 4) ([] : List String).length ∧
    ((batchRun "standard" "d" none none [] [] [] 4).workers = 0 ↔
      ([] : List String).length = 0) ∧
    (([] : List String) = [] →
      (batchRun "standard" "d" none none [] [] [] 4).outcome = .ok () ∧
      (batchRun "standard" "d" none none [] [] [] 4).dispatched = []) :=
  batch_worker_count "standard" "d" none none [] [] [] 4 (by decide)
    (by decide) (fun q h => by cases h)

/-- C7: with no explicit target, `batch` derives
`dirpath/<transformation name>` as the target directory, and when that
directory already exists it fails with the directory-collision error
(Python's `FileExistsError` from `mkdir`, the spec's
`DirectoryExistsError`) before the source directory is enumerated and
before any job is dispatched. -/
theorem batch_dir_exists (name dirpath : String) (ncores : Option ℕ)
    (kwargs : List (String × String)) (dirs files : List String)
    (navail : ℕ) (hex : (dirpath ++ "/" ++ name) ∈ dirs) :
    (batchRun name dirpath none ncores kwargs dirs files navail).target =
      dirpath ++ "/" ++ name ∧
    (batchRun name dirpath none ncores kwargs dirs files navail).outcome =
      .error .fileExistsError ∧
    (batchRun name dirpath none ncores kwargs dirs files navail).enumerated =
      false ∧
    (batchRun name dirpath none ncores kwargs dirs files navail).dispatched =
      [] := by
  simp [batchRun, hex]

/-- Witness for C7: the auto-derived directory `d/standard` already
exists, so the whole batch fails up front. -/
theorem batch_dir_exists_witness :
    (batchRun "standard" "d" none none [] ["d/standard"] ["a.edf"] 4).target =
      "d" ++ "/" ++ "standard" ∧
    (batchRun "standard" "d" none none [] ["d/standard"] ["a.edf"] 4).outcome =
      .error .fileExistsError ∧
    (batchRun "standard" "d" none none [] ["d/standard"] ["a.edf"]
        4).enumerated = false ∧
    (batchRun "standard" "d" none none [] ["d/standard"] ["a.edf"]
        4).dispatched = [] :=
  batch_dir_exists "standard" "d" none [] ["d/standard"] ["a.edf"] 4
    (by decide)

/-- C8: every job `batch` dispatches carries the resolved target directory
as its `savedir`, and any caller-supplied `savedir` keyword has been
removed from the forwarded parameters (`kwargs.pop('savedir', None)`
before `partial(preprocessor, savedir=target, **kwargs)`). -/
theorem batch_savedir_precedence (name dirpath : String)
    (target : Option String) (ncores : Option ℕ)
    (kwargs : List (String × String)) (dirs files : List String)
    (navail : ℕ) :
    ∀ job ∈ (batchRun name dirpath target ncores kwargs dirs files
        navail).dispatched,
      job.savedir =
        (batchRun name dirpath target ncores kwargs dirs files navail).target ∧
      "savedir" ∉ job.params.map Prod.fst := by
  intro job hjob
  by_cases h : target.getD (dirpath ++ "/" ++ name) ∈ dirs
  · simp [batchRun, h] at hjob
  · simp only [batchRun, if_neg h] at hjob ⊢
    obtain ⟨f, hf, hjob2⟩ := List.mem_map.mp hjob
    rw [← hjob2]
    refine ⟨rfl, ?_⟩
    intro hmem
    obtain ⟨kv, hkv, hfst⟩ := List.mem_map.mp hmem
    have := (List.mem_filter.mp hkv).2
    simp only [decide_eq_true_eq] at this
    exact this hfst

/-- Witness for C8: a caller-supplied `savedir` of `"evil"` is dropped and
the dispatched job's `savedir` is the resolved `d/standard`. -/
theorem batch_savedir_precedence_witness :
    (Job.mk "a.edf" "d/standard" [("fs", "5000")]).savedir =
      (batchRun "standard" "d" none none [("savedir", "evil"), ("fs", "5000")]
          [] ["a.edf"] 4).target ∧
    "savedir" ∉ (Job.mk "a.edf" "d/standard" [("fs", "5000")]).params.map
        Prod.fst :=
  batch_savedir_precedence "standard" "d" none none
    [("savedir", "evil"), ("fs", "5000")] [] ["a.edf"] 4
    ⟨"a.edf", "d/standard", [("fs", "5000")]⟩ (by decide)

end Ebb
